import Mathlib

/-!
Verification of the wingshack WhatsApp worker (`src/index.ts`).

Strings are modelled as lists of characters (`Str`).  The phone-number
helpers `normalizePhone` and `e164ToWhatsAppId` are translated directly
from the source.  JS `String.prototype.trim` is modelled as removal of
leading and trailing whitespace, `phone.split('@')[0]` as the prefix
before the first `'@'`, and the regex `/^\+/` replacement as removal of
one leading `'+'`.
-/

namespace Wingshack

/-- Strings modelled as lists of characters. -/
abbrev Str := List Char

/-- Model of JS `trim` applied from the left: drop leading whitespace. -/
def trimLeft (s : Str) : Str := s.dropWhile Char.isWhitespace

/-- Model of JS `trim` applied from the right: drop trailing whitespace. -/
def trimRight (s : Str) : Str := (s.reverse.dropWhile Char.isWhitespace).reverse

/-- Model of JS `String.prototype.trim`. -/
def trimStr (s : Str) : Str := trimRight (trimLeft s)

/-- Model of `phone.split('@')[0]`: the prefix before the first `'@'`. -/
def beforeAt (s : Str) : Str := s.takeWhile (fun c => c != '@')

/-- The WhatsApp individual-chat suffix `"@c.us"`. -/
def cusSuffix : Str := ['@', 'c', '.', 'u', 's']

/-- `normalizePhone` from `src/index.ts`:
strip everything from the first `'@'`, trim, then ensure a leading `'+'`. -/
def normalizePhone (phone : Str) : Str :=
  let cleaned := trimStr (beforeAt phone)
  if cleaned.head? = some '+' then cleaned else '+' :: cleaned

/-- `e164ToWhatsAppId` from `src/index.ts`:
trim, remove one leading `'+'` (regex `/^\+/`), append `"@c.us"`. -/
def e164ToWhatsAppId (e164Phone : Str) : Str :=
  let t := trimStr e164Phone
  let cleaned := if t.head? = some '+' then t.tail else t
  cleaned ++ cusSuffix

/-- A string whose first character, if any, is not whitespace. -/
def HeadNotWs (s : Str) : Prop := ∀ c ∈ s.head?, c.isWhitespace = false

/-- A fully trimmed string: no leading and no trailing whitespace. -/
def Trimmed (s : Str) : Prop := HeadNotWs s ∧ HeadNotWs s.reverse

/-- The concrete input of the spec's round-trip example:
`"447900000001@c.us"`. -/
def exampleSuffixed : Str :=
  ['4', '4', '7', '9', '0', '0', '0', '0', '0', '0', '0', '1'] ++ cusSuffix

/-!
## The job store

The `outbox_jobs` and `messages` tables of the Supabase store, and the
row-level operations `processOutboundJob` performs on them.  Each Supabase
update is an atomic conditional row update; it is modelled as a pure map
over the rows filtered by the update's `WHERE` clause.
-/
/-- `status` values of a job (and of a linked message). -/
inductive JobStatus
  | queued
  | processing
  | sent
  | failed
deriving DecidableEq

/-- A row of `outbox_jobs`. -/
structure Job where
  id : Nat
  to_phone_e164 : Str
  body : Str
  status : JobStatus
  attempts : Nat
  last_error : Option Str
  created_at : Nat
  message_id : Option Nat
deriving DecidableEq

/-- A row of `messages` (only the fields the worker touches). -/
structure Message where
  id : Nat
  status : JobStatus
deriving DecidableEq

/-- The shared job store. -/
structure Store where
  jobs : List Job
  messages : List Message
deriving DecidableEq

/-- The `WHERE` clause of the claim update:
`id = jid AND status = 'queued'`. -/
def isClaimable (jid : Nat) (j : Job) : Bool :=
  j.id == jid && j.status == JobStatus.queued

/-- `UPDATE outbox_jobs SET ... WHERE id = jid` (the terminal and
failure writes, which filter by `id` only). -/
def updateJobById (jid : Nat) (f : Job → Job) (s : Store) : Store :=
  { s with jobs := s.jobs.map fun j => if j.id == jid then f j else j }

/-- `UPDATE messages SET ... WHERE id = mid`. -/
def updateMessageById (mid : Nat) (f : Message → Message) (s : Store) : Store :=
  { s with messages := s.messages.map fun m => if m.id == mid then f m else m }

/-- Fold step of the query `ORDER BY created_at ASC LIMIT 1`: keep the
row with the strictly smaller `created_at`; ties keep the first seen. -/
def pickOlder (acc : Option Job) (j : Job) : Option Job :=
  match acc with
  | none => some j
  | some k => if j.created_at < k.created_at then some j else some k

/-- The dispatcher's query: oldest row with `status = 'queued'`. -/
def selectOldestQueued (s : Store) : Option Job :=
  (s.jobs.filter fun j => j.status == JobStatus.queued).foldl pickOlder none

/-- The claimed row produced by the conditional update. -/
def claimedRow (att : Nat) (j : Job) : Job :=
  { j with status := JobStatus.processing, attempts := att }

/-- The store after the claim update touched its matching rows. -/
def claimStore (s : Store) (jid att : Nat) : Store :=
  { s with jobs := s.jobs.map fun j =>
      if isClaimable jid j then claimedRow att j else j }

/-- The conditional claim update of `processOutboundJob`:
`UPDATE outbox_jobs SET status = 'processing', attempts = att
 WHERE id = jid AND status = 'queued'`, followed by `.select().single()`.
Returns the updated store and the updated row, or the unchanged store and
`none` when the update affected zero rows. -/
def claimJob (s : Store) (jid att : Nat) : Store × Option Job :=
  match s.jobs.find? (isClaimable jid) with
  | none => (s, none)
  | some j0 => (claimStore s jid att, some (claimedRow att j0))

/-- `const newAttempts = updatedJob.attempts || 1` — JS `||` treats `0`
as falsy. -/
def newAttemptsOf (row : Job) : Nat := if row.attempts = 0 then 1 else row.attempts

/-- The failure write: `status` becomes `'failed'` when the attempt
ceiling is reached and `'queued'` otherwise, and `last_error` records the
send error.  Filters by `id` only. -/
def jobFailUpdate (maxAttempts : Nat) (row : Job) (err : Str) (s : Store) : Store :=
  let newStatus :=
    if newAttemptsOf row ≥ maxAttempts then JobStatus.failed else JobStatus.queued
  updateJobById row.id
    (fun j => { j with status := newStatus, last_error := some err }) s

/-- The success write: `status` becomes `'sent'`.  Filters by `id` only. -/
def jobSentUpdate (row : Job) (s : Store) : Store :=
  updateJobById row.id (fun j => { j with status := JobStatus.sent }) s

/-- The linked-message status write. -/
def msgUpdate (mid : Nat) (st : JobStatus) (s : Store) : Store :=
  updateMessageById mid (fun m => { m with status := st }) s

/-- The error message thrown when `client` is `null`. -/
def clientNotInitialized : Str := "WhatsApp client not initialized".toList

/-- The success branch of the send: job to `'sent'`, then the linked
message (if any) to `'sent'`. -/
def sentPath (row : Job) (s : Store) : Store :=
  let s2 := jobSentUpdate row s
  match row.message_id with
  | some mid => msgUpdate mid JobStatus.sent s2
  | none => s2

/-- The failure branch of the send: the failure write, then the linked
message to `'failed'` — the latter only when the ceiling was reached. -/
def failPath (maxAttempts : Nat) (row : Job) (err : Str) (s : Store) : Store :=
  let s2 := jobFailUpdate maxAttempts row err s
  if newAttemptsOf row ≥ maxAttempts then
    match row.message_id with
    | some mid => msgUpdate mid JobStatus.failed s2
    | none => s2
  else s2

/-- One complete `processOutboundJob` invocation executed without
interference from other dispatcher instances.  `clientReady` states
whether the global `client` handle is initialized; `sendOk` whether
`client.sendText` succeeds when it is; `sendErr` is the message of a
failed send. -/
def runTick (maxAttempts : Nat) (clientReady sendOk : Bool) (sendErr : Str)
    (s : Store) : Store :=
  match selectOldestQueued s with
  | none => s
  | some job =>
      match claimJob s job.id (job.attempts + 1) with
      | (s1, none) => s1
      | (s1, some row) =>
          if clientReady && sendOk then sentPath row s1
          else
            failPath maxAttempts row
              (if clientReady then sendErr else clientNotInitialized) s1

/-- Look a job up by `id` (the first matching row). -/
def jobById (s : Store) (jid : Nat) : Option Job :=
  s.jobs.find? fun j => j.id == jid

/-- The `status` of the job with id `jid`. -/
def jobStatusS (s : Store) (jid : Nat) : Option JobStatus :=
  (jobById s jid).map Job.status

/-- The `attempts` of the job with id `jid`. -/
def jobAttemptsS (s : Store) (jid : Nat) : Option Nat :=
  (jobById s jid).map Job.attempts

/-- The `last_error` of the job with id `jid`. -/
def jobLastErrS (s : Store) (jid : Nat) : Option (Option Str) :=
  (jobById s jid).map Job.last_error

/-- Look a message up by `id`. -/
def msgById (s : Store) (mid : Nat) : Option Message :=
  s.messages.find? fun m => m.id == mid

/-- The `status` of the message with id `mid`. -/
def msgStatusS (s : Store) (mid : Nat) : Option JobStatus :=
  (msgById s mid).map Message.status

/-- The net effect of one uninterfered tick on the record of the job it
claimed, as a row transformation of the claimed row. -/
def postRow (mx : Nat) (ready ok : Bool) (err : Str) (row : Job) : Job :=
  if ready && ok then { row with status := JobStatus.sent }
  else
    { row with
        status :=
          if newAttemptsOf row ≥ mx then JobStatus.failed else JobStatus.queued,
        last_error := some (if ready then err else clientNotInitialized) }

/-!
## Interleaved dispatcher instances

`processOutboundJob` suspends at each `await`; between suspensions other
dispatcher instances may run against the same store.  A `Proc` is one
instance's module-level `isProcessingJob` flag plus its control point;
an `Action` is the piece of the tick executed between two suspension
points.  The store operations are the ones defined above.
-/
/-- Control points of `processOutboundJob`, with the local variables
live at each point (`job` snapshot, `updatedJob` row). -/
inductive Phase
  | idle
  | queried (snap : Job)
  | claimed (row : Job)
  | sendDone (row : Job) (ok : Bool) (err : Str)
  | msgWrite (mid : Nat) (st : JobStatus)
deriving DecidableEq

/-- One dispatcher instance. -/
structure Proc where
  flag : Bool
  phase : Phase
deriving DecidableEq

/-- The steps of a tick: entry check plus query, claim update, send
outcome, job status write, linked-message write, and the catch-all error
handler (`catch` + `finally`). -/
inductive Action
  | start
  | claim
  | send (ok : Bool) (err : Str)
  | write
  | msg
  | abort
deriving DecidableEq

/-- A dispatcher at rest: flag released, no tick in flight. -/
def idleProc : Proc := { flag := false, phase := Phase.idle }

/-- Effect of one step on one dispatcher and the shared store, translated
from `processOutboundJob`.  A step that does not match the current control
point changes nothing. -/
def procStep (maxAttempts : Nat) (st : Store) (p : Proc) :
    Action → Store × Proc
  | Action.start =>
      match p.phase with
      | Phase.idle =>
          if p.flag then (st, p)
          else
            match selectOldestQueued st with
            | none => (st, idleProc)
            | some job => (st, { flag := true, phase := Phase.queried job })
      | _ => (st, p)
  | Action.claim =>
      match p.phase with
      | Phase.queried snap =>
          ((claimJob st snap.id (snap.attempts + 1)).1,
            match (claimJob st snap.id (snap.attempts + 1)).2 with
            | none => idleProc
            | some row => { flag := true, phase := Phase.claimed row })
      | _ => (st, p)
  | Action.send ok err =>
      match p.phase with
      | Phase.claimed row =>
          (st, { flag := true, phase := Phase.sendDone row ok err })
      | _ => (st, p)
  | Action.write =>
      match p.phase with
      | Phase.sendDone row ok err =>
          ((if ok then jobSentUpdate row st else jobFailUpdate maxAttempts row err st),
            if ok then
              match row.message_id with
              | some mid => { flag := true, phase := Phase.msgWrite mid JobStatus.sent }
              | none => idleProc
            else if newAttemptsOf row ≥ maxAttempts then
              match row.message_id with
              | some mid => { flag := true, phase := Phase.msgWrite mid JobStatus.failed }
              | none => idleProc
            else idleProc)
      | _ => (st, p)
  | Action.msg =>
      match p.phase with
      | Phase.msgWrite mid stt => (msgUpdate mid stt st, idleProc)
      | _ => (st, p)
  | Action.abort => (st, idleProc)

/-- A system configuration: the shared store and all dispatcher
instances. -/
structure Config where
  store : Store
  procs : List Proc
deriving DecidableEq

/-- Run one step of dispatcher `i`. -/
def doAct (maxAttempts : Nat) (c : Config) (i : Nat) (a : Action) : Config :=
  match c.procs[i]? with
  | none => c
  | some p =>
      let r := procStep maxAttempts c.store p a
      { store := r.1, procs := c.procs.set i r.2 }

/-- Run a whole interleaving. -/
def runTrace (maxAttempts : Nat) : Config → List (Nat × Action) → Config
  | c, [] => c
  | c, ia :: rest => runTrace maxAttempts (doAct maxAttempts c ia.1 ia.2) rest

/-- `n` dispatchers at rest over an initial store. -/
def initConfig (s : Store) (n : Nat) : Config :=
  { store := s, procs := List.replicate n idleProc }

/-- The id of the job a dispatcher has claimed and not yet written back. -/
def holderOf (p : Proc) : Option Nat :=
  match p.phase with
  | Phase.claimed row => some row.id
  | Phase.sendDone row _ _ => some row.id
  | _ => none

/-- Dispatcher `i` holds the claim on job `jid`. -/
def Holds (c : Config) (i jid : Nat) : Prop :=
  ∃ p, c.procs[i]? = some p ∧ holderOf p = some jid

/-- System invariant: job ids are unique, every held job is `processing`
in the store, and no two dispatchers hold the same job. -/
def Inv (c : Config) : Prop :=
  (c.store.jobs.map Job.id).Nodup ∧
  (∀ i jid, Holds c i jid →
    ∃ j ∈ c.store.jobs, j.id = jid ∧ j.status = JobStatus.processing) ∧
  (∀ i k jid, i ≠ k → Holds c i jid → Holds c k jid → False)

/-!
## Serialized claim attempts

The store serializes concurrent conditional updates; `foldClaims` applies
a sequence of claim attempts against the same job id and counts how many
observed a non-zero-row update.
-/
/-- Apply successive claim attempts (with the given `attempts` values) on
job `jid`, counting successes. -/
def foldClaims (s : Store) (jid : Nat) : List Nat → Store × Nat
  | [] => (s, 0)
  | att :: rest =>
      ((foldClaims (claimJob s jid att).1 jid rest).1,
        (if ((claimJob s jid att).2).isSome then 1 else 0) +
          (foldClaims (claimJob s jid att).1 jid rest).2)

/-!
## Session acquisition (`startWhatsAppClient`)

The retry loop is modelled over a sequence of acquisition outcomes
(attempt number to outcome of `create(...)`).  The model records the
backoff delays (`Math.max(1000, 500 * attempt)`) waited before busy
retries.
-/
/-- Outcome of one `create(...)` call. -/
inductive AcqOutcome
  | ok
  | err (msg : Str)
deriving DecidableEq

/-- `'profile appears to be in use'`. -/
def busyPattern1 : Str := ("profile appears to be in use").toList

/-- `'Code: 21'`. -/
def busyPattern2 : Str := ("Code: 21").toList

/-- JS `String.prototype.includes`: contiguous substring test. -/
def containsSub (needle : Str) : Str → Bool
  | [] => List.isPrefixOf needle []
  | c :: rest => List.isPrefixOf needle (c :: rest) || containsSub needle rest

/-- The singleton-lock conflict signature test from the catch block. -/
def isBusyError (msg : Str) : Bool :=
  containsSub busyPattern1 msg || containsSub busyPattern2 msg

/-- `const delay = Math.max(1000, 500 * attempt)`. -/
def retryDelay (attempt : Nat) : Nat := max 1000 (500 * attempt)

/-- Result of the whole acquisition loop. -/
inductive AcqResult
  | success (attempt : Nat)
  | fatal (msg : Str)
deriving DecidableEq

/-- The retry loop body of `startWhatsAppClient`: on error, throw if this
was the last attempt (`attempt === maxRetries`), otherwise loop again —
with a recorded backoff delay only when the error matched the busy
signature. -/
def acquireAux (outcomes : Nat → AcqOutcome) (maxRetries : Nat) :
    Nat → Nat → AcqResult × List Nat
  | _, 0 => (AcqResult.fatal [], [])
  | attempt, fuel + 1 =>
      match outcomes attempt with
      | AcqOutcome.ok => (AcqResult.success attempt, [])
      | AcqOutcome.err m =>
          if attempt = maxRetries then (AcqResult.fatal m, [])
          else
            ((acquireAux outcomes maxRetries (attempt + 1) fuel).1,
              if isBusyError m then
                retryDelay attempt ::
                  (acquireAux outcomes maxRetries (attempt + 1) fuel).2
              else (acquireAux outcomes maxRetries (attempt + 1) fuel).2)

/-- `startWhatsAppClient`: `maxRetries = 3`, attempts numbered from 1. -/
def startWhatsAppClient (outcomes : Nat → AcqOutcome) : AcqResult × List Nat :=
  acquireAux outcomes 3 1 3

/-!
## Profile-directory cleanup (`cleanupChromiumLockFiles`)

The profile directory is a tree of files and subdirectories;
`cleanupChromiumLockFiles` deletes files whose names match the lock-file
predicate, recursing into subdirectories to a bounded depth.
-/
/-- A filesystem entry of the profile directory. -/
inductive FSEntry
  | file (name contents : Str)
  | dir (name : Str) (entries : List FSEntry)

/-- The fixed `lockFiles` list. -/
def lockFileNames : List Str :=
  [("SingletonLock").toList, ("SingletonCookie").toList,
   ("SingletonSocket").toList, ("Lockfile").toList]

/-- `isLockFile` from `cleanupChromiumLockFiles`: a known lock name, a
`Singleton` name, `Lockfile`, or a name whose lowercase form starts with
`lock`. -/
def isLockFile (name : Str) : Bool :=
  lockFileNames.contains name ||
  List.isPrefixOf (("Singleton").toList) name ||
  name == ("Lockfile").toList ||
  List.isPrefixOf (("lock").toList) (name.map Char.toLower)

/-- The durable session-token patterns of `startWhatsAppClient`
(`.data`, `.wppconnect`, `wppconnect.json`, or a `.wppconnect` name). -/
def isSessionToken (name : Str) : Bool :=
  containsSub ((".data").toList) name ||
  containsSub ((".wppconnect").toList) name ||
  containsSub (("wppconnect.json").toList) name ||
  List.isPrefixOf ((".wppconnect").toList) name

mutual

/-- Cleanup applied to a single entry at scan depth `depth`: lock-named
files are deleted; directories are kept and their contents scanned at
`depth + 1`, but a scan deeper than 3 returns immediately. -/
def cleanEntry (depth : Nat) : FSEntry → Option FSEntry
  | FSEntry.file nm contents =>
      if isLockFile nm then none else some (FSEntry.file nm contents)
  | FSEntry.dir nm sub =>
      some (FSEntry.dir nm
        (if depth + 1 > 3 then sub else cleanListAux (depth + 1) sub))

/-- Cleanup applied to a directory listing at scan depth `depth`. -/
def cleanListAux (depth : Nat) : List FSEntry → List FSEntry
  | [] => []
  | e :: rest =>
      match cleanEntry depth e with
      | none => cleanListAux depth rest
      | some e2 => e2 :: cleanListAux depth rest

end

/-- `cleanupChromiumLockFiles`: scan the profile directory from depth 0. -/
def cleanupChromiumLockFiles (root : List FSEntry) : List FSEntry :=
  cleanListAux 0 root

/-- Look up a top-level file's contents by name. -/
def findFile (nm : Str) : List FSEntry → Option Str
  | [] => none
  | FSEntry.file n c :: rest => if n == nm then some c else findFile nm rest
  | FSEntry.dir _ _ :: rest => findFile nm rest

/-- The flag/phase lockstep of the reentrancy guard: `isProcessingJob` is
set exactly while a tick is in flight. -/
def FlagInv (p : Proc) : Prop := p.flag = true ↔ p.phase ≠ Phase.idle

/-!
## Concrete instances

Small concrete stores, traces and directories used to evaluate the
definitions on explicit inputs.
-/
/-- A queued job with no attempts yet. -/
def cJob : Job :=
  { id := 0, to_phone_e164 := ['+', '1'], body := ['h', 'i'],
    status := JobStatus.queued, attempts := 0, last_error := none,
    created_at := 0, message_id := none }

/-- A store holding just `cJob`. -/
def cStore : Store := { jobs := [cJob], messages := [] }

/-- `cJob` already claimed by someone. -/
def cJobP : Job := { cJob with status := JobStatus.processing }

/-- A store holding just `cJobP`. -/
def cStoreP : Store := { jobs := [cJobP], messages := [] }

/-- A queued job with one prior attempt and a linked message. -/
def cJobM : Job := { cJob with attempts := 1, message_id := some 7 }

/-- A store holding `cJobM` and its linked message. -/
def cStoreM : Store :=
  { jobs := [cJobM], messages := [{ id := 7, status := JobStatus.queued }] }

/-- A job already in the terminal `sent` state. -/
def sentJob : Job := { cJob with status := JobStatus.sent }

/-- A store with the sent job and a younger queued job. -/
def sentStore : Store :=
  { jobs := [sentJob, { cJob with id := 1, created_at := 1 }], messages := [] }

/-- Interleaving in which dispatcher 0 queries, then dispatcher 1 runs a
whole failing tick (claim, send failure, requeue) before dispatcher 0's
claim executes. -/
def raceTrace : List (Nat × Action) :=
  [(0, Action.start), (1, Action.start), (1, Action.claim),
   (1, Action.send false ['e']), (1, Action.write)]

/-- The configuration after `raceTrace`. -/
def raceC1 : Config := runTrace 5 (initConfig cStore 2) raceTrace

/-- The configuration after dispatcher 0's stale-snapshot claim. -/
def raceC2 : Config := doAct 5 raceC1 0 Action.claim

/-- A non-busy acquisition error message. -/
def netErr : Str := ("connect ECONNREFUSED").toList

/-- Acquisition outcomes: a non-busy failure on attempt 1, then success. -/
def ceOutcomes : Nat → AcqOutcome :=
  fun k => if k = 1 then AcqOutcome.err netErr else AcqOutcome.ok

/-- Acquisition outcomes: every attempt hits the busy conflict. -/
def allBusy : Nat → AcqOutcome := fun _ => AcqOutcome.err busyPattern1

/-- The volatile artifact's name. -/
def sLockName : Str := ("SingletonLock").toList

/-- A name matching both the durable-auth patterns and the lock-file
predicate. -/
def trapName : Str := ("lock.data").toList

/-- Durable authentication bytes. -/
def authContents : Str := ['t', 'o', 'k']

/-- A profile directory holding the volatile artifact and a durable-pattern
file whose name also matches the lock predicate. -/
def ceDir : List FSEntry :=
  [FSEntry.file sLockName ['x'], FSEntry.file trapName authContents]

/-- A durable-auth name that does not match the lock predicate. -/
def dataName : Str := ("session.data").toList

/-- A profile directory holding the volatile artifact and an ordinary
durable-auth file. -/
def okDir : List FSEntry :=
  [FSEntry.file sLockName ['x'], FSEntry.file dataName authContents]

theorem headNotWs_nil : HeadNotWs ([] : Str) := by
  intro c hc
  simp at hc

theorem headNotWs_cons {c : Char} {s : Str} (h : c.isWhitespace = false) :
    HeadNotWs (c :: s) := by
  intro d hd
  simp at hd
  subst hd
  exact h

theorem headNotWs_dropWhile (s : Str) :
    HeadNotWs (s.dropWhile Char.isWhitespace) := by
  induction s with
  | nil => exact headNotWs_nil
  | cons c cs ih =>
    by_cases h : c.isWhitespace
    · simpa [List.dropWhile_cons, h] using ih
    · simp only [Bool.not_eq_true] at h
      simp [List.dropWhile_cons, h, headNotWs_cons h]

theorem dropWhile_eq_self_of_headNotWs {s : Str} (h : HeadNotWs s) :
    s.dropWhile Char.isWhitespace = s := by
  cases s with
  | nil => rfl
  | cons c cs =>
    have hc : c.isWhitespace = false := h c (by simp)
    simp [List.dropWhile_cons, hc]

theorem dropWhile_ws_append (l1 l2 : Str) :
    (l1 ++ l2).dropWhile Char.isWhitespace =
      if l1.dropWhile Char.isWhitespace = [] then l2.dropWhile Char.isWhitespace
      else l1.dropWhile Char.isWhitespace ++ l2 := by
  induction l1 with
  | nil => simp
  | cons c cs ih =>
    by_cases h : c.isWhitespace
    · simpa [List.dropWhile_cons, h] using ih
    · simp only [Bool.not_eq_true] at h
      simp [List.dropWhile_cons, h]

theorem trimRight_headNotWs {s : Str} (h : HeadNotWs s) :
    HeadNotWs (trimRight s) := by
  cases s with
  | nil => exact headNotWs_nil
  | cons c cs =>
    have hc : c.isWhitespace = false := h c (by simp)
    unfold trimRight
    rw [List.reverse_cons, dropWhile_ws_append]
    by_cases hemp : cs.reverse.dropWhile Char.isWhitespace = []
    · simp [hemp, List.dropWhile_cons, hc, headNotWs_cons hc]
    · simp only [hemp, if_neg hemp, List.reverse_append]
      simp [headNotWs_cons hc]

theorem trimRight_revHeadNotWs (s : Str) : HeadNotWs (trimRight s).reverse := by
  unfold trimRight
  rw [List.reverse_reverse]
  exact headNotWs_dropWhile s.reverse

theorem trimStr_trimmed (s : Str) : Trimmed (trimStr s) := by
  constructor
  · exact trimRight_headNotWs (headNotWs_dropWhile s)
  · exact trimRight_revHeadNotWs (trimLeft s)

theorem trimStr_eq_self {s : Str} (h : Trimmed s) : trimStr s = s := by
  unfold trimStr trimLeft trimRight
  rw [dropWhile_eq_self_of_headNotWs h.1, dropWhile_eq_self_of_headNotWs h.2,
    List.reverse_reverse]

theorem trimStr_idem (s : Str) : trimStr (trimStr s) = trimStr s :=
  trimStr_eq_self (trimStr_trimmed s)

theorem trimmed_cons_plus {s : Str} (h : Trimmed s) : Trimmed ('+' :: s) := by
  constructor
  · exact headNotWs_cons (by decide)
  · rw [List.reverse_cons]
    cases hs : s.reverse with
    | nil => simp [hs, headNotWs_cons]
    | cons d ds =>
      have hd : d.isWhitespace = false := h.2 d (by simp [hs])
      rw [List.cons_append]
      exact headNotWs_cons hd

theorem mem_trimStr_subset {c : Char} {s : Str} (h : c ∈ trimStr s) : c ∈ s := by
  unfold trimStr trimRight trimLeft at h
  rw [List.mem_reverse] at h
  have h1 := (List.dropWhile_sublist Char.isWhitespace).subset h
  rw [List.mem_reverse] at h1
  exact (List.dropWhile_sublist Char.isWhitespace).subset h1

theorem beforeAt_eq_self {s : Str} (h : '@' ∉ s) : beforeAt s = s := by
  unfold beforeAt
  rw [List.takeWhile_eq_self_iff]
  intro c hc
  simp only [bne_iff_ne, ne_eq]
  intro hceq
  exact h (hceq ▸ hc)

theorem mem_beforeAt_ne {c : Char} {s : Str} (h : c ∈ beforeAt s) : c ≠ '@' := by
  unfold beforeAt at h
  have := List.mem_takeWhile_imp h
  simpa using this

theorem normalizePhone_eq (s : Str) :
    normalizePhone s =
      if (trimStr (beforeAt s)).head? = some '+' then trimStr (beforeAt s)
      else '+' :: trimStr (beforeAt s) := rfl

theorem e164ToWhatsAppId_eq (s : Str) :
    e164ToWhatsAppId s =
      (if (trimStr s).head? = some '+' then (trimStr s).tail else trimStr s) ++
        cusSuffix := rfl

theorem normalizePhone_trimmed (s : Str) : Trimmed (normalizePhone s) := by
  rw [normalizePhone_eq]
  split_ifs with h
  · exact trimStr_trimmed _
  · exact trimmed_cons_plus (trimStr_trimmed _)

theorem normalizePhone_head (s : Str) : (normalizePhone s).head? = some '+' := by
  rw [normalizePhone_eq]
  split_ifs with h
  · exact h
  · rfl

theorem normalizePhone_no_at (s : Str) : '@' ∉ normalizePhone s := by
  have hbase : '@' ∉ trimStr (beforeAt s) := fun hmem =>
    mem_beforeAt_ne (mem_trimStr_subset hmem) rfl
  rw [normalizePhone_eq]
  split_ifs with h
  · exact hbase
  · simp only [List.mem_cons, not_or]
    exact ⟨by decide, hbase⟩

/-- C10: `normalizePhone` is idempotent, its output always begins with `'+'`,
and its output contains no `'@'` character (the portion after the first `'@'`
is discarded before the `'+'` prefix is ensured). -/
theorem normalizePhone_idem_head_noAt (s : Str) :
    normalizePhone (normalizePhone s) = normalizePhone s ∧
      (normalizePhone s).head? = some '+' ∧ '@' ∉ normalizePhone s := by
  refine ⟨?_, normalizePhone_head s, normalizePhone_no_at s⟩
  rw [normalizePhone_eq (normalizePhone s), beforeAt_eq_self (normalizePhone_no_at s),
    trimStr_eq_self (normalizePhone_trimmed s), normalizePhone_head s]
  simp

/-- C10 witness: the three conjuncts evaluated at a concrete input. -/
theorem normalizePhone_idem_head_noAt_witness :
    normalizePhone (normalizePhone ['4', '4', '7', '@', 'c']) =
        normalizePhone ['4', '4', '7', '@', 'c'] ∧
      (normalizePhone ['4', '4', '7', '@', 'c']).head? = some '+' ∧
      '@' ∉ normalizePhone ['4', '4', '7', '@', 'c'] :=
  normalizePhone_idem_head_noAt ['4', '4', '7', '@', 'c']

/-- C4 (counterexample): the round-trip equation
`e164ToWhatsAppId (normalizePhone x) = e164ToWhatsAppId x` fails at the
spec's own example input `"447900000001@c.us"`, because `e164ToWhatsAppId`
strips only a leading `'+'` and never a trailing `"@c.us"`; converting the
suffixed input directly yields `"447900000001@c.us@c.us"`. -/
theorem roundTrip_fails_on_suffixed_input :
    e164ToWhatsAppId (normalizePhone exampleSuffixed) ≠
      e164ToWhatsAppId exampleSuffixed := by
  decide

/-- C4 (amended): for every input string `x` that contains no `'@'`
(in particular with or without a leading `'+'`), converting directly
equals converting the normalized form:
`e164ToWhatsAppId (normalizePhone x) = e164ToWhatsAppId x`. -/
theorem roundTrip_holds_without_at {s : Str} (h : '@' ∉ s) :
    e164ToWhatsAppId (normalizePhone s) = e164ToWhatsAppId s := by
  by_cases hh : (trimStr s).head? = some '+'
  · rw [normalizePhone_eq, beforeAt_eq_self h, if_pos hh,
      e164ToWhatsAppId_eq, e164ToWhatsAppId_eq, trimStr_idem s]
  · rw [normalizePhone_eq, beforeAt_eq_self h, if_neg hh,
      e164ToWhatsAppId_eq, e164ToWhatsAppId_eq,
      trimStr_eq_self (trimmed_cons_plus (trimStr_trimmed s))]
    simp [hh]

/-- C4 witness: the amended round-trip at the concrete input
`"+447900000001"`. -/
theorem roundTrip_holds_without_at_witness :
    '@' ∉ ['+', '4', '4', '7', '9', '0', '0', '0', '0', '0', '0', '0', '1'] ∧
      e164ToWhatsAppId
          (normalizePhone
            ['+', '4', '4', '7', '9', '0', '0', '0', '0', '0', '0', '0', '1']) =
        e164ToWhatsAppId
          ['+', '4', '4', '7', '9', '0', '0', '0', '0', '0', '0', '0', '1'] :=
  ⟨by decide, roundTrip_holds_without_at (by decide)⟩

/-- The positive half of the spec's example: `"447900000001@c.us"`
normalizes to `"+447900000001"`, which converts to `"447900000001@c.us"`. -/
theorem example_normalize_then_convert :
    normalizePhone exampleSuffixed =
        '+' :: ['4', '4', '7', '9', '0', '0', '0', '0', '0', '0', '0', '1'] ∧
      e164ToWhatsAppId (normalizePhone exampleSuffixed) = exampleSuffixed := by
  constructor <;> decide

/-!
## Store lemmas

All job updates preserve row ids, so `find?` by id commutes with them.
-/
theorem find?_id_map {g : Job → Job} (hg : ∀ j, (g j).id = j.id) (jid : Nat) :
    ∀ l : List Job,
      (l.map g).find? (fun j => j.id == jid) =
        (l.find? (fun j => j.id == jid)).map g := by
  intro l
  induction l with
  | nil => rfl
  | cons a l ih =>
    rw [List.map_cons]
    simp only [List.find?_cons, hg a]
    cases h : (a.id == jid) <;> simp [ih]

theorem id_injective {l : List Job} (hnd : (l.map Job.id).Nodup) {a b : Job}
    (ha : a ∈ l) (hb : b ∈ l) (hab : a.id = b.id) : a = b :=
  List.inj_on_of_nodup_map hnd ha hb hab

theorem find?_pred_unique {l : List Job} (hnd : (l.map Job.id).Nodup)
    {p : Job → Bool} {j : Job} (hj : j ∈ l) (hpj : p j = true)
    (hp : ∀ x, p x = true → x.id = j.id) : l.find? p = some j := by
  induction l with
  | nil => cases hj
  | cons a l ih =>
    rw [List.map_cons, List.nodup_cons] at hnd
    by_cases hpa : p a = true
    · have ha : a = j := by
        rcases List.mem_cons.1 hj with rfl | hj'
        · rfl
        · exact absurd (hp a hpa ▸ List.mem_map_of_mem Job.id hj') hnd.1
      rw [List.find?_cons_of_pos _ hpa, ha]
    · have hj' : j ∈ l := by
        rcases List.mem_cons.1 hj with rfl | hj'
        · exact absurd hpj hpa
        · exact hj'
      rw [List.find?_cons_of_neg _ hpa, ih hnd.2 hj']

theorem jobById_eq_of_mem {s : Store} (hnd : (s.jobs.map Job.id).Nodup)
    {j : Job} (hj : j ∈ s.jobs) : jobById s j.id = some j :=
  find?_pred_unique hnd hj (by simp) (fun x hx => by simpa using hx)

theorem jobById_updateJobById {f : Job → Job} (hf : ∀ j, (f j).id = j.id)
    (s : Store) (jid jid' : Nat) :
    jobById (updateJobById jid f s) jid' =
      (jobById s jid').map fun j => if j.id == jid then f j else j := by
  unfold jobById updateJobById
  exact find?_id_map (fun j => by by_cases h : (j.id == jid) = true <;> simp [h, hf]) jid' _

theorem jobById_msgUpdate (mid : Nat) (st : JobStatus) (s : Store) (jid : Nat) :
    jobById (msgUpdate mid st s) jid = jobById s jid := rfl

theorem msgById_updateMessageById {f : Message → Message}
    (hf : ∀ m, (f m).id = m.id) (s : Store) (mid mid' : Nat) :
    msgById (updateMessageById mid f s) mid' =
      (msgById s mid').map fun m => if m.id == mid then f m else m := by
  unfold msgById updateMessageById
  simp only
  induction s.messages with
  | nil => rfl
  | cons a l ih =>
    have hga : (if (a.id == mid) = true then f a else a).id = a.id := by
      by_cases h2 : (a.id == mid) = true <;> simp [h2, hf]
    rw [List.map_cons]
    simp only [List.find?_cons, hga]
    cases h : (a.id == mid')
    · exact ih
    · simp

theorem msgById_jobUpdate {f : Job → Job} (jid : Nat) (s : Store) (mid : Nat) :
    msgById (updateJobById jid f s) mid = msgById s mid := rfl

theorem pickOlder_foldl_mem :
    ∀ (l : List Job) (acc : Option Job) (j : Job),
      l.foldl pickOlder acc = some j → acc = some j ∨ j ∈ l := by
  intro l
  induction l with
  | nil => exact fun acc j h => Or.inl h
  | cons a l ih =>
    intro acc j h
    rcases ih (pickOlder acc a) j h with h' | h'
    · cases acc with
      | none =>
        simp only [pickOlder] at h'
        exact Or.inr (Option.some_inj.1 h' ▸ List.mem_cons_self a l)
      | some k =>
        simp only [pickOlder] at h'
        by_cases hlt : a.created_at < k.created_at
        · rw [if_pos hlt] at h'
          exact Or.inr (Option.some_inj.1 h' ▸ List.mem_cons_self a l)
        · rw [if_neg hlt] at h'
          exact Or.inl h'
    · exact Or.inr (List.mem_cons_of_mem a h')

theorem selectOldestQueued_mem {s : Store} {j : Job}
    (h : selectOldestQueued s = some j) :
    j ∈ s.jobs ∧ j.status = JobStatus.queued := by
  unfold selectOldestQueued at h
  rcases pickOlder_foldl_mem _ none j h with h' | h'
  · cases h'
  · have h1 := List.mem_filter.1 h'
    exact ⟨h1.1, by simpa using h1.2⟩

theorem claimJob_none_store {s : Store} {jid att : Nat}
    (h : (claimJob s jid att).2 = none) : (claimJob s jid att).1 = s := by
  unfold claimJob at h ⊢
  cases hf : s.jobs.find? (isClaimable jid) with
  | none => rfl
  | some j0 => rw [hf] at h; cases h

theorem claimJob_some {s : Store} {jid att : Nat} {row : Job}
    (h : (claimJob s jid att).2 = some row) :
    ∃ j0 ∈ s.jobs, isClaimable jid j0 = true ∧ row = claimedRow att j0 ∧
      (claimJob s jid att).1 = claimStore s jid att := by
  unfold claimJob at h ⊢
  cases hf : s.jobs.find? (isClaimable jid) with
  | none => rw [hf] at h; cases h
  | some j0 =>
    rw [hf] at h
    exact ⟨j0, List.mem_of_find?_eq_some hf, List.find?_some hf,
      (Option.some_inj.1 h).symm, rfl⟩

theorem claimedRow_not_claimable (jid att : Nat) (j : Job) :
    isClaimable jid (claimedRow att j) = false := by
  unfold isClaimable claimedRow
  simp only
  have : (JobStatus.processing == JobStatus.queued) = false := by decide
  simp [this]

theorem claimJob_post_find_none {s : Store} {jid att : Nat} {row : Job}
    (h : (claimJob s jid att).2 = some row) :
    ((claimJob s jid att).1).jobs.find? (isClaimable jid) = none := by
  obtain ⟨j0, _, _, _, hstore⟩ := claimJob_some h
  rw [hstore]
  unfold claimStore
  apply List.find?_eq_none.2
  intro j hj
  rw [List.mem_map] at hj
  obtain ⟨x, _, rfl⟩ := hj
  by_cases hcx : isClaimable jid x = true
  · rw [if_pos hcx]
    simp [claimedRow_not_claimable]
  · rw [if_neg hcx]
    simp_all

theorem claimJob_of_find_none {s : Store} {jid : Nat}
    (h : s.jobs.find? (isClaimable jid) = none) (att : Nat) :
    claimJob s jid att = (s, none) := by
  unfold claimJob
  rw [h]

theorem claim_after_claim {s : Store} {jid att : Nat} {row : Job}
    (h : (claimJob s jid att).2 = some row) (att' : Nat) :
    claimJob (claimJob s jid att).1 jid att' = ((claimJob s jid att).1, none) :=
  claimJob_of_find_none (claimJob_post_find_none h) att'

theorem find?_claimable_of_sel {s : Store} (hnd : (s.jobs.map Job.id).Nodup)
    {job : Job} (hsel : selectOldestQueued s = some job) :
    s.jobs.find? (isClaimable job.id) = some job := by
  obtain ⟨hmem, hq⟩ := selectOldestQueued_mem hsel
  apply find?_pred_unique hnd hmem
  · simp [isClaimable, hq]
  · intro x hx
    unfold isClaimable at hx
    rw [Bool.and_eq_true] at hx
    simpa using hx.1

theorem claimJob_of_sel {s : Store} (hnd : (s.jobs.map Job.id).Nodup)
    {job : Job} (hsel : selectOldestQueued s = some job) (att : Nat) :
    claimJob s job.id att =
      (claimStore s job.id att, some (claimedRow att job)) := by
  unfold claimJob
  rw [find?_claimable_of_sel hnd hsel]

theorem jobById_mapStore {g : Job → Job} (hg : ∀ j, (g j).id = j.id)
    (s : Store) (jid' : Nat) :
    jobById { s with jobs := s.jobs.map g } jid' = (jobById s jid').map g :=
  find?_id_map hg jid' s.jobs

theorem jobById_jobSentUpdate (row : Job) (s : Store) (jid' : Nat) :
    jobById (jobSentUpdate row s) jid' =
      (jobById s jid').map fun j =>
        if j.id == row.id then { j with status := JobStatus.sent } else j :=
  @jobById_updateJobById (fun j => { j with status := JobStatus.sent })
    (fun _ => rfl) s row.id jid'

theorem jobById_jobFailUpdate (mx : Nat) (row : Job) (err : Str) (s : Store)
    (jid' : Nat) :
    jobById (jobFailUpdate mx row err s) jid' =
      (jobById s jid').map fun j =>
        if j.id == row.id then
          { j with
              status :=
                if newAttemptsOf row ≥ mx then JobStatus.failed else JobStatus.queued,
              last_error := some err }
        else j :=
  @jobById_updateJobById
    (fun j =>
      { j with
          status :=
            if newAttemptsOf row ≥ mx then JobStatus.failed else JobStatus.queued,
          last_error := some err })
    (fun _ => rfl) s row.id jid'

theorem jobById_sentPath (row : Job) (s : Store) (jid' : Nat) :
    jobById (sentPath row s) jid' = jobById (jobSentUpdate row s) jid' := by
  unfold sentPath
  cases row.message_id <;> rfl

theorem jobById_failPath (mx : Nat) (row : Job) (err : Str) (s : Store)
    (jid' : Nat) :
    jobById (failPath mx row err s) jid' =
      jobById (jobFailUpdate mx row err s) jid' := by
  unfold failPath
  by_cases hmax : newAttemptsOf row ≥ mx
  · rw [if_pos hmax]
    cases row.message_id <;> rfl
  · rw [if_neg hmax]

theorem claim_map_presId (jid att : Nat) :
    ∀ j : Job, (if isClaimable jid j then claimedRow att j else j).id = j.id := by
  intro j
  by_cases h : isClaimable jid j <;> simp [h, claimedRow]

theorem runTick_no_job {s : Store} (h : selectOldestQueued s = none)
    (mx : Nat) (ready ok : Bool) (err : Str) : runTick mx ready ok err s = s := by
  unfold runTick
  rw [h]

theorem jobById_claimStore (s : Store) (jid att jid' : Nat) :
    jobById (claimStore s jid att) jid' =
      (jobById s jid').map fun j =>
        if isClaimable jid j then claimedRow att j else j :=
  jobById_mapStore (claim_map_presId jid att) s jid'

theorem runTick_of_sel {s : Store} (hnd : (s.jobs.map Job.id).Nodup)
    {job : Job} (hsel : selectOldestQueued s = some job)
    (mx : Nat) (ready ok : Bool) (err : Str) :
    runTick mx ready ok err s =
      if ready && ok then
        sentPath (claimedRow (job.attempts + 1) job)
          (claimStore s job.id (job.attempts + 1))
      else
        failPath mx (claimedRow (job.attempts + 1) job)
          (if ready then err else clientNotInitialized)
          (claimStore s job.id (job.attempts + 1)) := by
  unfold runTick
  rw [hsel]
  simp only [claimJob_of_sel hnd hsel]

theorem runTick_jobById_claimed {s : Store} (hnd : (s.jobs.map Job.id).Nodup)
    {job : Job} (hsel : selectOldestQueued s = some job)
    (mx : Nat) (ready ok : Bool) (err : Str) :
    jobById (runTick mx ready ok err s) job.id =
      some (postRow mx ready ok err (claimedRow (job.attempts + 1) job)) := by
  obtain ⟨hmem, hq⟩ := selectOldestQueued_mem hsel
  have hcl : isClaimable job.id job = true := by simp [isClaimable, hq]
  rw [runTick_of_sel hnd hsel mx ready ok err]
  by_cases hro : (ready && ok) = true
  · rw [if_pos hro, jobById_sentPath, jobById_jobSentUpdate, jobById_claimStore,
      jobById_eq_of_mem hnd hmem]
    simp [hcl, postRow, hro, claimedRow]
  · rw [if_neg hro, jobById_failPath, jobById_jobFailUpdate, jobById_claimStore,
      jobById_eq_of_mem hnd hmem]
    simp [hcl, postRow, hro, claimedRow]

theorem runTick_jobById_other {s : Store} (hnd : (s.jobs.map Job.id).Nodup)
    {job : Job} (hsel : selectOldestQueued s = some job)
    (mx : Nat) (ready ok : Bool) (err : Str) (jid' : Nat) (hne : jid' ≠ job.id) :
    jobById (runTick mx ready ok err s) jid' = jobById s jid' := by
  rw [runTick_of_sel hnd hsel mx ready ok err]
  have hrowid : (claimedRow (job.attempts + 1) job).id = job.id := rfl
  by_cases hro : (ready && ok) = true
  · rw [if_pos hro, jobById_sentPath, jobById_jobSentUpdate, jobById_claimStore]
    cases hfind : jobById s jid' with
    | none => rfl
    | some r =>
      have hr : r.id = jid' := by
        have := List.find?_some hfind
        simpa using this
      have hncl : isClaimable job.id r = false := by
        simp [isClaimable, hr, hne]
      simp [hncl, hrowid, hr, hne]
  · rw [if_neg hro, jobById_failPath, jobById_jobFailUpdate, jobById_claimStore]
    cases hfind : jobById s jid' with
    | none => rfl
    | some r =>
      have hr : r.id = jid' := by
        have := List.find?_some hfind
        simpa using this
      have hncl : isClaimable job.id r = false := by
        simp [isClaimable, hr, hne]
      simp [hncl, hrowid, hr, hne]

theorem mapId_presId {l : List Job} {g : Job → Job} (hg : ∀ j, (g j).id = j.id) :
    (l.map g).map Job.id = l.map Job.id := by
  rw [List.map_map]
  exact List.map_congr_left fun a _ => hg a

theorem isClaimable_false_of_status {jid : Nat} {j : Job}
    (h : j.status ≠ JobStatus.queued) : isClaimable jid j = false := by
  have hb : (j.status == JobStatus.queued) = false := by simpa using h
  simp [isClaimable, hb]

theorem mem_claimStore_of_not_claimable {s : Store} {jid att : Nat} {j : Job}
    (hj : j ∈ s.jobs) (h : isClaimable jid j = false) :
    j ∈ (claimStore s jid att).jobs :=
  List.mem_map.2 ⟨j, hj, by simp [h]⟩

theorem mem_updateJobById_of_ne {s : Store} {jid : Nat} {f : Job → Job} {j : Job}
    (hj : j ∈ s.jobs) (h : j.id ≠ jid) : j ∈ (updateJobById jid f s).jobs :=
  List.mem_map.2 ⟨j, hj, by simp [h]⟩

theorem claimStore_mapId (s : Store) (jid att : Nat) :
    (claimStore s jid att).jobs.map Job.id = s.jobs.map Job.id :=
  mapId_presId (claim_map_presId jid att)

theorem jobSentUpdate_mapId (row : Job) (s : Store) :
    (jobSentUpdate row s).jobs.map Job.id = s.jobs.map Job.id :=
  mapId_presId fun j => by by_cases h : (j.id == row.id) = true <;> simp [h]

theorem jobFailUpdate_mapId (mx : Nat) (row : Job) (err : Str) (s : Store) :
    (jobFailUpdate mx row err s).jobs.map Job.id = s.jobs.map Job.id :=
  mapId_presId fun j => by by_cases h : (j.id == row.id) = true <;> simp [h]

theorem procStep_mapId (mx : Nat) (st : Store) (p : Proc) (a : Action) :
    (procStep mx st p a).1.jobs.map Job.id = st.jobs.map Job.id := by
  obtain ⟨fl, ph⟩ := p
  cases a with
  | start =>
    cases ph with
    | idle =>
      by_cases hf : fl = true
      · simp [procStep, hf]
      · cases hsel : selectOldestQueued st <;> simp [procStep, hf, hsel]
    | queried snap => rfl
    | claimed row => rfl
    | sendDone row ok err => rfl
    | msgWrite mid stt => rfl
  | claim =>
    cases ph with
    | queried snap =>
      show (claimJob st snap.id (snap.attempts + 1)).1.jobs.map Job.id = _
      cases hr2 : (claimJob st snap.id (snap.attempts + 1)).2 with
      | none => rw [claimJob_none_store hr2]
      | some row =>
        obtain ⟨j0, _, _, _, hstore⟩ := claimJob_some hr2
        rw [hstore, claimStore_mapId]
    | idle => rfl
    | claimed row => rfl
    | sendDone row ok err => rfl
    | msgWrite mid stt => rfl
  | send ok err => cases ph <;> rfl
  | write =>
    cases ph with
    | sendDone row ok err =>
      show ((if ok then jobSentUpdate row st
        else jobFailUpdate mx row err st)).jobs.map Job.id = _
      by_cases hok : ok = true
      · rw [if_pos hok, jobSentUpdate_mapId]
      · rw [if_neg (by simpa using hok), jobFailUpdate_mapId]
    | idle => rfl
    | queried snap => rfl
    | claimed row => rfl
    | msgWrite mid stt => rfl
  | msg => cases ph <;> rfl
  | abort => rfl

theorem isClaimable_spec {jid : Nat} {j : Job} (h : isClaimable jid j = true) :
    j.id = jid ∧ j.status = JobStatus.queued := by
  unfold isClaimable at h
  rw [Bool.and_eq_true] at h
  exact ⟨by simpa using h.1, by simpa using h.2⟩

theorem claim_some_row_in_store {st : Store} {jid att : Nat} {row : Job}
    (h : (claimJob st jid att).2 = some row) :
    row ∈ (claimJob st jid att).1.jobs ∧ row.status = JobStatus.processing ∧
      row.id = jid ∧ row.attempts = att := by
  obtain ⟨j0, hj0, hcl, hrow, hstore⟩ := claimJob_some h
  refine ⟨?_, ?_, ?_, ?_⟩
  · rw [hstore, hrow]
    exact List.mem_map.2 ⟨j0, hj0, by simp [hcl]⟩
  · rw [hrow]; rfl
  · rw [hrow]
    exact (isClaimable_spec hcl).1
  · rw [hrow]; rfl

theorem claim_some_queued_row {st : Store} {jid att : Nat} {row : Job}
    (h : (claimJob st jid att).2 = some row) :
    ∃ j0 ∈ st.jobs, j0.id = jid ∧ j0.status = JobStatus.queued := by
  obtain ⟨j0, hj0, hcl, _, _⟩ := claimJob_some h
  exact ⟨j0, hj0, (isClaimable_spec hcl).1, (isClaimable_spec hcl).2⟩

theorem procStep_preserves_row (mx : Nat) (st : Store) (p : Proc) (a : Action)
    {j : Job} (hj : j ∈ st.jobs) (hnq : j.status ≠ JobStatus.queued)
    (hnh : ∀ jid, holderOf p = some jid → j.id ≠ jid) :
    j ∈ (procStep mx st p a).1.jobs := by
  obtain ⟨fl, ph⟩ := p
  cases a with
  | start =>
    cases ph with
    | idle =>
      by_cases hf : fl = true
      · simpa [procStep, hf] using hj
      · cases hsel : selectOldestQueued st <;> simpa [procStep, hf, hsel] using hj
    | queried snap => exact hj
    | claimed row => exact hj
    | sendDone row ok err => exact hj
    | msgWrite mid stt => exact hj
  | claim =>
    cases ph with
    | queried snap =>
      show j ∈ (claimJob st snap.id (snap.attempts + 1)).1.jobs
      cases hr2 : (claimJob st snap.id (snap.attempts + 1)).2 with
      | none =>
        rw [claimJob_none_store hr2]
        exact hj
      | some row =>
        obtain ⟨j0, _, _, _, hstore⟩ := claimJob_some hr2
        rw [hstore]
        exact mem_claimStore_of_not_claimable hj (isClaimable_false_of_status hnq)
    | idle => exact hj
    | claimed row => exact hj
    | sendDone row ok err => exact hj
    | msgWrite mid stt => exact hj
  | send ok err => cases ph <;> exact hj
  | write =>
    cases ph with
    | sendDone row ok err =>
      have hne : j.id ≠ row.id := hnh row.id rfl
      show j ∈ ((if ok then jobSentUpdate row st
        else jobFailUpdate mx row err st)).jobs
      by_cases hok : ok = true
      · rw [if_pos hok]
        exact mem_updateJobById_of_ne hj hne
      · rw [if_neg (by simpa using hok)]
        exact mem_updateJobById_of_ne hj hne
    | idle => exact hj
    | queried snap => exact hj
    | claimed row => exact hj
    | msgWrite mid stt => exact hj
  | msg => cases ph <;> exact hj
  | abort => exact hj

theorem procStep_holder_store (mx : Nat) (st : Store) (p : Proc) (a : Action)
    (jid : Nat) (h : holderOf (procStep mx st p a).2 = some jid) :
    (holderOf p = some jid ∧ (procStep mx st p a).1 = st) ∨
    (∃ snap row, p.phase = Phase.queried snap ∧
      (claimJob st snap.id (snap.attempts + 1)).2 = some row ∧ jid = row.id ∧
      (procStep mx st p a).1 = (claimJob st snap.id (snap.attempts + 1)).1) := by
  obtain ⟨fl, ph⟩ := p
  cases a with
  | start =>
    cases ph with
    | idle =>
      by_cases hf : fl = true
      · simp only [procStep, hf, if_pos] at h
        exact Or.inl ⟨h, by simp [procStep, hf]⟩
      · cases hsel : selectOldestQueued st <;>
          simp [procStep, hf, hsel, holderOf, idleProc] at h
    | queried snap => simp [procStep, holderOf] at h
    | claimed row => exact Or.inl ⟨h, rfl⟩
    | sendDone row ok err => exact Or.inl ⟨h, rfl⟩
    | msgWrite mid stt => exact Or.inl ⟨h, rfl⟩
  | claim =>
    cases ph with
    | queried snap =>
      have h2 : holderOf (match (claimJob st snap.id (snap.attempts + 1)).2 with
          | none => idleProc
          | some row => { flag := true, phase := Phase.claimed row }) = some jid := h
      cases hr2 : (claimJob st snap.id (snap.attempts + 1)).2 with
      | none => rw [hr2] at h2; simp [holderOf, idleProc] at h2
      | some row =>
        rw [hr2] at h2
        simp only [holderOf] at h2
        exact Or.inr ⟨snap, row, rfl, hr2, (Option.some_inj.1 h2).symm, rfl⟩
    | idle => simp [procStep, holderOf] at h
    | claimed row => exact Or.inl ⟨h, rfl⟩
    | sendDone row ok err => exact Or.inl ⟨h, rfl⟩
    | msgWrite mid stt => exact Or.inl ⟨h, rfl⟩
  | send ok err =>
    cases ph with
    | claimed row => exact Or.inl ⟨h, rfl⟩
    | idle => simp [procStep, holderOf] at h
    | queried snap => simp [procStep, holderOf] at h
    | sendDone row ok2 err2 => exact Or.inl ⟨h, rfl⟩
    | msgWrite mid stt => exact Or.inl ⟨h, rfl⟩
  | write =>
    cases ph with
    | sendDone row ok err =>
      have h2 : holderOf (if ok then
          match row.message_id with
          | some mid => { flag := true, phase := Phase.msgWrite mid JobStatus.sent }
          | none => idleProc
        else if newAttemptsOf row ≥ mx then
          match row.message_id with
          | some mid => { flag := true, phase := Phase.msgWrite mid JobStatus.failed }
          | none => idleProc
        else idleProc) = some jid := h
      by_cases hok : ok = true
      · rw [if_pos hok] at h2
        cases hm : row.message_id <;> rw [hm] at h2 <;>
          simp [holderOf, idleProc] at h2
      · rw [if_neg (by simpa using hok)] at h2
        by_cases hmax : newAttemptsOf row ≥ mx
        · rw [if_pos hmax] at h2
          cases hm : row.message_id <;> rw [hm] at h2 <;>
            simp [holderOf, idleProc] at h2
        · rw [if_neg hmax] at h2
          simp [holderOf, idleProc] at h2
    | idle => simp [procStep, holderOf] at h
    | queried snap => simp [procStep, holderOf] at h
    | claimed row => exact Or.inl ⟨h, rfl⟩
    | msgWrite mid stt => exact Or.inl ⟨h, rfl⟩
  | msg =>
    cases ph with
    | msgWrite mid stt => simp [procStep, holderOf, idleProc] at h
    | idle => simp [procStep, holderOf] at h
    | queried snap => simp [procStep, holderOf] at h
    | claimed row => exact Or.inl ⟨h, rfl⟩
    | sendDone row ok err => exact Or.inl ⟨h, rfl⟩
  | abort => simp [procStep, holderOf, idleProc] at h

theorem holds_set_self {c : Config} {st' : Store} {p' : Proc} {i jid : Nat}
    (hlen : i < c.procs.length) :
    Holds { store := st', procs := c.procs.set i p' } i jid ↔
      holderOf p' = some jid := by
  unfold Holds
  constructor
  · rintro ⟨q, hq, hh⟩
    rw [List.getElem?_set_self hlen] at hq
    cases hq
    exact hh
  · intro hh
    exact ⟨p', by rw [List.getElem?_set_self hlen], hh⟩

theorem holds_set_ne {c : Config} {st' : Store} {p' : Proc} {i k jid : Nat}
    (hik : i ≠ k) :
    Holds { store := st', procs := c.procs.set i p' } k jid ↔ Holds c k jid := by
  unfold Holds
  rw [List.getElem?_set_ne hik]

theorem holds_store_irrel {c : Config} {st' : Store} {k jid : Nat} :
    Holds { store := st', procs := c.procs } k jid ↔ Holds c k jid := Iff.rfl

theorem inv_preserved (mx : Nat) {c : Config} (hInv : Inv c) (i : Nat)
    (a : Action) : Inv (doAct mx c i a) := by
  obtain ⟨hnd, hhold, huniq⟩ := hInv
  unfold doAct
  cases hp : c.procs[i]? with
  | none => exact ⟨hnd, hhold, huniq⟩
  | some p =>
    have hlen : i < c.procs.length := by
      by_contra hge
      rw [List.getElem?_eq_none (Nat.le_of_not_lt hge)] at hp
      cases hp
    have hHoldsP : ∀ jid, holderOf p = some jid → Holds c i jid :=
      fun jid hh => ⟨p, hp, hh⟩
    refine ⟨?_, ?_, ?_⟩
    · show ((procStep mx c.store p a).1.jobs.map Job.id).Nodup
      rw [procStep_mapId]
      exact hnd
    · intro k jid hk
      by_cases hki : k = i
      · subst hki
        rw [holds_set_self hlen] at hk
        rcases procStep_holder_store mx c.store p a jid hk with
          ⟨hold, hsteq⟩ | ⟨snap, row, hph, hr2, hjid, hsteq⟩
        · obtain ⟨rowk, hrowk, hid, hproc⟩ := hhold k jid (hHoldsP jid hold)
          refine ⟨rowk, ?_, hid, hproc⟩
          show rowk ∈ (procStep mx c.store p a).1.jobs
          rw [hsteq]
          exact hrowk
        · obtain ⟨hmem', hproc', hid', _⟩ := claim_some_row_in_store hr2
          refine ⟨row, ?_, hjid ▸ rfl, hproc'⟩
          show row ∈ (procStep mx c.store p a).1.jobs
          rw [hsteq]
          exact hmem'
      · rw [holds_set_ne (fun h => hki h.symm)] at hk
        obtain ⟨rowk, hrowk, hid, hproc⟩ := hhold k jid hk
        have hnh : ∀ jid0, holderOf p = some jid0 → rowk.id ≠ jid0 := by
          intro jid0 hh0 hidk
          exact huniq i k jid0 (fun h => hki h.symm) (hHoldsP jid0 hh0)
            (hidk ▸ hid ▸ hk)
        exact ⟨rowk,
          procStep_preserves_row mx c.store p a hrowk (by rw [hproc]; intro hcon; cases hcon) hnh,
          hid, hproc⟩
    · intro i' k' jid hne h1 h2
      by_cases hi'i : i' = i
      · subst hi'i
        have hk'ne : k' ≠ i' := fun h => hne h.symm
        rw [holds_set_self hlen] at h1
        rw [holds_set_ne (fun h => hk'ne h.symm)] at h2
        rcases procStep_holder_store mx c.store p a jid h1 with
          ⟨hold, _⟩ | ⟨snap, row, hph, hr2, hjid, _⟩
        · exact huniq i' k' jid hne (hHoldsP jid hold) h2
        · obtain ⟨j0, hj0, hj0id, hj0q⟩ := claim_some_queued_row hr2
          obtain ⟨rowk, hrowk, hidk, hprock⟩ := hhold k' jid h2
          have : j0 = rowk := id_injective hnd hj0 hrowk
              (by rw [hj0id, hidk, hjid]; exact (claim_some_row_in_store hr2).2.2.1.symm)
          rw [this, hprock] at hj0q
          cases hj0q
      · by_cases hk'i : k' = i
        · subst hk'i
          rw [holds_set_self hlen] at h2
          rw [holds_set_ne (fun h => hi'i h.symm)] at h1
          rcases procStep_holder_store mx c.store p a jid h2 with
            ⟨hold, _⟩ | ⟨snap, row, hph, hr2, hjid, _⟩
          · exact huniq i' k' jid hne h1 (hHoldsP jid hold)
          · obtain ⟨j0, hj0, hj0id, hj0q⟩ := claim_some_queued_row hr2
            obtain ⟨rowk, hrowk, hidk, hprock⟩ := hhold i' jid h1
            have : j0 = rowk := id_injective hnd hj0 hrowk
              (by rw [hj0id, hidk, hjid]; exact (claim_some_row_in_store hr2).2.2.1.symm)
            rw [this, hprock] at hj0q
            cases hj0q
        · rw [holds_set_ne (fun h => hi'i h.symm)] at h1
          rw [holds_set_ne (fun h => hk'i h.symm)] at h2
          exact huniq i' k' jid hne h1 h2

theorem terminal_preserved_step (mx : Nat) {c : Config} (hInv : Inv c)
    (i : Nat) (a : Action) {j : Job} (hj : j ∈ c.store.jobs)
    (hterm : j.status = JobStatus.sent ∨ j.status = JobStatus.failed) :
    j ∈ (doAct mx c i a).store.jobs := by
  obtain ⟨hnd, hhold, huniq⟩ := hInv
  unfold doAct
  cases hp : c.procs[i]? with
  | none => exact hj
  | some p =>
    have hnq : j.status ≠ JobStatus.queued := by
      rcases hterm with h | h <;> rw [h] <;> intro hcon <;> cases hcon
    have hnh : ∀ jid, holderOf p = some jid → j.id ≠ jid := by
      intro jid hh hid
      obtain ⟨rowk, hrowk, hidk, hprock⟩ := hhold i jid ⟨p, hp, hh⟩
      have : j = rowk := id_injective hnd hj hrowk (by rw [hid, hidk])
      rw [this, hprock] at hterm
      rcases hterm with h | h <;> cases h
    exact procStep_preserves_row mx c.store p a hj hnq hnh

theorem inv_runTrace (mx : Nat) {c : Config} (hInv : Inv c)
    (tr : List (Nat × Action)) : Inv (runTrace mx c tr) := by
  induction tr generalizing c with
  | nil => exact hInv
  | cons ia rest ih => exact ih (inv_preserved mx hInv ia.1 ia.2)

theorem terminal_preserved_trace (mx : Nat) {c : Config} (hInv : Inv c)
    (tr : List (Nat × Action)) {j : Job} (hj : j ∈ c.store.jobs)
    (hterm : j.status = JobStatus.sent ∨ j.status = JobStatus.failed) :
    j ∈ (runTrace mx c tr).store.jobs := by
  induction tr generalizing c with
  | nil => exact hj
  | cons ia rest ih =>
    exact ih (inv_preserved mx hInv ia.1 ia.2)
      (terminal_preserved_step mx hInv ia.1 ia.2 hj hterm)

theorem inv_initConfig {s : Store} (hnd : (s.jobs.map Job.id).Nodup) (n : Nat) :
    Inv (initConfig s n) := by
  refine ⟨hnd, ?_, ?_⟩
  · rintro i jid ⟨p, hp, hh⟩
    have : p = idleProc := by
      have := List.getElem?_mem hp
      rcases List.eq_of_mem_replicate this with rfl
      rfl
    rw [this] at hh
    cases hh
  · rintro i k jid _ ⟨p, hp, hh⟩ _
    have : p = idleProc := by
      have := List.getElem?_mem hp
      rcases List.eq_of_mem_replicate this with rfl
      rfl
    rw [this] at hh
    cases hh

theorem foldClaims_of_find_none {s : Store} {jid : Nat}
    (h : s.jobs.find? (isClaimable jid) = none) :
    ∀ atts, foldClaims s jid atts = (s, 0) := by
  intro atts
  induction atts with
  | nil => rfl
  | cons att rest ih =>
    have hc : claimJob s jid att = (s, none) := claimJob_of_find_none h att
    show ((foldClaims (claimJob s jid att).1 jid rest).1,
      (if ((claimJob s jid att).2).isSome then 1 else 0) +
        (foldClaims (claimJob s jid att).1 jid rest).2) = (s, 0)
    rw [hc]
    simp [ih]

theorem foldClaims_one {s : Store} {jid : Nat}
    (hq : ∃ j ∈ s.jobs, isClaimable jid j = true) (att : Nat)
    (rest : List Nat) :
    (foldClaims s jid (att :: rest)).2 = 1 ∧
      (foldClaims s jid (att :: rest)).1 = (claimJob s jid att).1 := by
  have hsome : (s.jobs.find? (isClaimable jid)).isSome := by
    rw [List.find?_isSome]
    obtain ⟨j, hj, hcl⟩ := hq
    exact ⟨j, hj, hcl⟩
  obtain ⟨j0, hfind⟩ := Option.isSome_iff_exists.1 hsome
  have h2 : (claimJob s jid att).2 = some (claimedRow att j0) := by
    unfold claimJob
    rw [hfind]
  have hpost := claimJob_post_find_none h2
  constructor
  · show (if ((claimJob s jid att).2).isSome then 1 else 0) +
      (foldClaims (claimJob s jid att).1 jid rest).2 = 1
    rw [h2, foldClaims_of_find_none hpost rest]
    simp
  · show (foldClaims (claimJob s jid att).1 jid rest).1 = _
    rw [foldClaims_of_find_none hpost rest]

theorem msgStatusS_msgUpdate (mid : Nat) (stt : JobStatus) (s : Store) :
    msgStatusS (msgUpdate mid stt s) mid =
      (msgStatusS s mid).map fun _ => stt := by
  unfold msgStatusS msgUpdate
  rw [@msgById_updateMessageById (fun m => { m with status := stt })
    (fun _ => rfl) s mid mid]
  cases hm : msgById s mid with
  | none => rfl
  | some m =>
    have hm2 : s.messages.find? (fun x => x.id == mid) = some m := hm
    have hmid : m.id = mid := by
      have := List.find?_some hm2
      simpa using this
    simp [hmid]

theorem newAttemptsOf_claimedRow (att : Nat) (j : Job) (h : att ≠ 0) :
    newAttemptsOf (claimedRow att j) = att := by
  simp [newAttemptsOf, claimedRow, h]

theorem postRow_attempts (mx : Nat) (ready ok : Bool) (err : Str) (row : Job) :
    (postRow mx ready ok err row).attempts = row.attempts := by
  unfold postRow
  split_ifs <;> rfl

theorem acquireAux_succ (outcomes : Nat → AcqOutcome) (mr attempt fuel : Nat) :
    acquireAux outcomes mr attempt (fuel + 1) =
      match outcomes attempt with
      | AcqOutcome.ok => (AcqResult.success attempt, [])
      | AcqOutcome.err m =>
          if attempt = mr then (AcqResult.fatal m, [])
          else
            ((acquireAux outcomes mr (attempt + 1) fuel).1,
              if isBusyError m then
                retryDelay attempt ::
                  (acquireAux outcomes mr (attempt + 1) fuel).2
              else (acquireAux outcomes mr (attempt + 1) fuel).2) := rfl

theorem acquireAux_ok {outcomes : Nat → AcqOutcome} {mr attempt fuel : Nat}
    (h : outcomes attempt = AcqOutcome.ok) :
    acquireAux outcomes mr attempt (fuel + 1) =
      (AcqResult.success attempt, []) := by
  rw [acquireAux_succ, h]

theorem acquireAux_err_last {outcomes : Nat → AcqOutcome}
    {mr attempt fuel : Nat} {m : Str} (h : outcomes attempt = AcqOutcome.err m)
    (hax : attempt = mr) :
    acquireAux outcomes mr attempt (fuel + 1) = (AcqResult.fatal m, []) := by
  rw [acquireAux_succ, h]
  exact if_pos hax

theorem acquireAux_err_cont {outcomes : Nat → AcqOutcome}
    {mr attempt fuel : Nat} {m : Str} (h : outcomes attempt = AcqOutcome.err m)
    (hax : attempt ≠ mr) :
    acquireAux outcomes mr attempt (fuel + 1) =
      ((acquireAux outcomes mr (attempt + 1) fuel).1,
        if isBusyError m then
          retryDelay attempt :: (acquireAux outcomes mr (attempt + 1) fuel).2
        else (acquireAux outcomes mr (attempt + 1) fuel).2) := by
  rw [acquireAux_succ, h]
  exact if_neg hax

theorem acquire_delays_ge (outcomes : Nat → AcqOutcome) :
    ∀ (fuel attempt : Nat) (d : Nat),
      d ∈ (acquireAux outcomes 3 attempt fuel).2 → 1000 ≤ d := by
  intro fuel
  induction fuel with
  | zero =>
    intro attempt d hd
    simp [acquireAux] at hd
  | succ n ih =>
    intro attempt d hd
    cases ho : outcomes attempt with
    | ok =>
      rw [acquireAux_ok ho] at hd
      simp at hd
    | err m =>
      by_cases hax : attempt = 3
      · rw [acquireAux_err_last ho hax] at hd
        simp at hd
      · rw [acquireAux_err_cont ho hax] at hd
        by_cases hb : isBusyError m = true
        · rw [if_pos hb] at hd
          rcases List.mem_cons.1 hd with rfl | hd'
          · exact le_max_left 1000 (500 * attempt)
          · exact ih (attempt + 1) d hd'
        · rw [if_neg hb] at hd
          exact ih (attempt + 1) d hd

theorem acquire_fatal_three {outcomes : Nat → AcqOutcome} {m1 m2 m3 : Str}
    (h1 : outcomes 1 = AcqOutcome.err m1) (h2 : outcomes 2 = AcqOutcome.err m2)
    (h3 : outcomes 3 = AcqOutcome.err m3) :
    (startWhatsAppClient outcomes).1 = AcqResult.fatal m3 := by
  simp [startWhatsAppClient, acquireAux, h1, h2, h3]

theorem acquire_success_ok {outcomes : Nat → AcqOutcome} {k : Nat}
    (h : (startWhatsAppClient outcomes).1 = AcqResult.success k) :
    outcomes k = AcqOutcome.ok ∧ 1 ≤ k ∧ k ≤ 3 := by
  unfold startWhatsAppClient at h
  cases ho1 : outcomes 1 with
  | ok =>
    simp [acquireAux, ho1] at h
    rw [← h]
    exact ⟨ho1, by omega, by omega⟩
  | err m1 =>
    cases ho2 : outcomes 2 with
    | ok =>
      simp [acquireAux, ho1, ho2] at h
      rw [← h]
      exact ⟨ho2, by omega, by omega⟩
    | err m2 =>
      cases ho3 : outcomes 3 with
      | ok =>
        simp [acquireAux, ho1, ho2, ho3] at h
        rw [← h]
        exact ⟨ho3, by omega, by omega⟩
      | err m3 =>
        simp [acquireAux, ho1, ho2, ho3] at h

theorem cleanListAux_preserves {nm : Str} (hnm : isLockFile nm = false)
    (depth : Nat) (es : List FSEntry) :
    findFile nm (cleanListAux depth es) = findFile nm es := by
  induction es with
  | nil => rfl
  | cons e rest ih =>
    cases e with
    | file n c =>
      by_cases hl : isLockFile n = true
      · have hne : (n == nm) = false := by
          rw [beq_eq_false_iff_ne]
          intro he
          rw [he, hnm] at hl
          cases hl
        simp [cleanListAux, cleanEntry, hl, findFile, hne, ih]
      · simp [cleanListAux, cleanEntry, hl, findFile, ih]
    | dir n sub =>
      simp [cleanListAux, cleanEntry, findFile, ih]

theorem cleanListAux_removes {nm : Str} (hnm : isLockFile nm = true)
    (depth : Nat) (es : List FSEntry) :
    findFile nm (cleanListAux depth es) = none := by
  induction es with
  | nil => rfl
  | cons e rest ih =>
    cases e with
    | file n c =>
      by_cases hl : isLockFile n = true
      · simp [cleanListAux, cleanEntry, hl, ih]
      · have hne : (n == nm) = false := by
          rw [beq_eq_false_iff_ne]
          intro he
          rw [he, hnm] at hl
          exact hl rfl
        simp [cleanListAux, cleanEntry, hl, findFile, hne, ih]
    | dir n sub =>
      simp [cleanListAux, cleanEntry, findFile, ih]

theorem flagInv_idleProc : FlagInv idleProc := by
  simp [FlagInv, idleProc]

/-!
## The claims
-/
/-- C1: the claim update transitions a job from `queued` to `processing`
only if it is still `queued` at update time, writing `attempts` in the same
conditional update; a zero-row update leaves the store unchanged; for any
number of serialized claim attempts on the same queued job exactly one
succeeds and the store ends as after the winner's claim alone; and a losing
dispatcher aborts its tick, returning to idle with no store mutation. -/
theorem claim_exclusivity :
    (∀ (s : Store) (jid att : Nat), (claimJob s jid att).2 = none →
      (claimJob s jid att).1 = s) ∧
    (∀ (s : Store) (jid att : Nat) (row : Job),
      (claimJob s jid att).2 = some row →
      ∃ j0 ∈ s.jobs, j0.id = jid ∧ j0.status = JobStatus.queued ∧
        row = claimedRow att j0 ∧ row.status = JobStatus.processing ∧
        row.attempts = att) ∧
    (∀ (s : Store) (jid : Nat), (∃ j ∈ s.jobs, isClaimable jid j = true) →
      ∀ (att : Nat) (rest : List Nat),
        (foldClaims s jid (att :: rest)).2 = 1 ∧
        (foldClaims s jid (att :: rest)).1 = (claimJob s jid att).1) ∧
    (∀ (mx : Nat) (st : Store) (fl : Bool) (snap : Job),
      (claimJob st snap.id (snap.attempts + 1)).2 = none →
      procStep mx st { flag := fl, phase := Phase.queried snap } Action.claim =
        (st, idleProc)) := by
  refine ⟨fun s jid att h => claimJob_none_store h, ?_, ?_, ?_⟩
  · intro s jid att row h
    obtain ⟨j0, hj0, hcl, hrow, _⟩ := claimJob_some h
    obtain ⟨hid, hst⟩ := isClaimable_spec hcl
    exact ⟨j0, hj0, hid, hst, hrow, by rw [hrow]; rfl, by rw [hrow]; rfl⟩
  · exact fun s jid hq att rest => foldClaims_one hq att rest
  · intro mx st fl snap h
    have h1 := claimJob_none_store h
    show ((claimJob st snap.id (snap.attempts + 1)).1,
      match (claimJob st snap.id (snap.attempts + 1)).2 with
      | none => idleProc
      | some row => { flag := true, phase := Phase.claimed row }) =
      (st, idleProc)
    rw [h, h1]

/-- C1 witness: a claim against an already-claimed job mutates nothing,
three serialized claim attempts on a queued job see exactly one success,
and a losing dispatcher's claim step returns it to idle. -/
theorem claim_exclusivity_witness :
    (claimJob cStoreP 0 1).1 = cStoreP ∧
    (foldClaims cStore 0 [1, 1, 1]).2 = 1 ∧
    procStep 5 cStoreP { flag := false, phase := Phase.queried cJobP }
        Action.claim = (cStoreP, idleProc) :=
  ⟨claim_exclusivity.1 cStoreP 0 1 (by decide),
    (claim_exclusivity.2.2.1 cStore 0 (by decide) 1 [1, 1]).1,
    claim_exclusivity.2.2.2 5 cStoreP false cJobP (by decide)⟩

/-- C2 (counterexample): with two dispatchers racing, dispatcher 1 claims,
fails, and requeues the job (attempts 1) between dispatcher 0's query
(snapshot attempts 0) and claim; dispatcher 0's claim then succeeds but
writes `attempts := 1`, so the attempts value after the claim is not the
value immediately before it plus one. -/
theorem attempts_race_counterexample :
    jobStatusS raceC1.store 0 = some JobStatus.queued ∧
    jobAttemptsS raceC1.store 0 = some 1 ∧
    (raceC2.procs[0]?).map holderOf = some (some 0) ∧
    jobAttemptsS raceC2.store 0 = some 1 ∧
    ¬ jobAttemptsS raceC2.store 0 = some (1 + 1) := by
  refine ⟨by decide, by decide, by decide, by decide, by decide⟩

/-- C2 (amended): in the absence of concurrent modification between query
and claim (one tick running alone), the claimed job's `attempts` after the
tick equals its value before plus one; no job's `attempts` ever decreases
across a tick; and the failure path's `newAttempts` is read from the
already-claimed record (whose value is the snapshot value plus one), not
recomputed from a stale snapshot. -/
theorem attempt_monotonic_amended (mx : Nat) (ready ok : Bool) (err : Str)
    (s : Store) (hnd : (s.jobs.map Job.id).Nodup) :
    (∀ job, selectOldestQueued s = some job →
      jobAttemptsS s job.id = some job.attempts ∧
      jobAttemptsS (runTick mx ready ok err s) job.id =
        some (job.attempts + 1)) ∧
    (∀ jid a b, jobAttemptsS s jid = some a →
      jobAttemptsS (runTick mx ready ok err s) jid = some b → a ≤ b) ∧
    (∀ (s2 : Store) (jid a : Nat) (row : Job),
      (claimJob s2 jid (a + 1)).2 = some row →
      newAttemptsOf row = row.attempts ∧ row.attempts = a + 1) := by
  refine ⟨?_, ?_, ?_⟩
  · intro job hsel
    obtain ⟨hmem, hq⟩ := selectOldestQueued_mem hsel
    constructor
    · unfold jobAttemptsS
      rw [jobById_eq_of_mem hnd hmem]
      rfl
    · unfold jobAttemptsS
      rw [runTick_jobById_claimed hnd hsel mx ready ok err]
      simp [postRow_attempts, claimedRow]
  · intro jid a b ha hb
    cases hsel : selectOldestQueued s with
    | none =>
      rw [runTick_no_job hsel mx ready ok err, ha] at hb
      exact Nat.le_of_eq (Option.some_inj.1 hb)
    | some job =>
      by_cases hjid : jid = job.id
      · obtain ⟨hmem, hq⟩ := selectOldestQueued_mem hsel
        have ha2 : a = job.attempts := by
          unfold jobAttemptsS at ha
          rw [hjid, jobById_eq_of_mem hnd hmem] at ha
          exact (Option.some_inj.1 ha).symm
        have hb2 : b = job.attempts + 1 := by
          unfold jobAttemptsS at hb
          rw [hjid, runTick_jobById_claimed hnd hsel mx ready ok err] at hb
          have := Option.some_inj.1 hb
          rw [← this, postRow_attempts]
          rfl
        rw [ha2, hb2]
        exact Nat.le_succ _
      · unfold jobAttemptsS at hb
        rw [runTick_jobById_other hnd hsel mx ready ok err jid hjid] at hb
        unfold jobAttemptsS at ha
        rw [ha] at hb
        exact Nat.le_of_eq (Option.some_inj.1 hb)
  · intro s2 jid a row h
    obtain ⟨j0, _, _, hrow, _⟩ := claimJob_some h
    refine ⟨?_, by rw [hrow]; rfl⟩
    rw [hrow]
    exact newAttemptsOf_claimedRow (a + 1) j0 (Nat.succ_ne_zero a)

/-- C2 witness: the uninterfered tick on the concrete store increments
the claimed job's attempts from 0 to 1. -/
theorem attempt_monotonic_amended_witness :
    jobAttemptsS cStore cJob.id = some cJob.attempts ∧
    jobAttemptsS (runTick 5 true true [] cStore) cJob.id =
      some (cJob.attempts + 1) :=
  (attempt_monotonic_amended 5 true true [] cStore (by decide)).1 cJob
    (by decide)

/-- C3: after a failed send of a claimed job (claimed record's attempts is
the snapshot's plus one), attempts `≥ MAX_ATTEMPTS` sets the job to
`failed` and propagates `failed` to the linked message, while attempts
`= MAX_ATTEMPTS - 1` sets the job back to `queued` with `last_error`
recorded; the boundary `attempts == MAX_ATTEMPTS` counts as reached. -/
theorem attempt_ceiling_boundary (mx : Nat) (err : Str) (s : Store)
    (job : Job) (hnd : (s.jobs.map Job.id).Nodup)
    (hsel : selectOldestQueued s = some job) :
    (job.attempts + 1 ≥ mx →
      jobStatusS (runTick mx true false err s) job.id =
        some JobStatus.failed ∧
      (∀ mid, job.message_id = some mid → (msgStatusS s mid).isSome →
        msgStatusS (runTick mx true false err s) mid =
          some JobStatus.failed)) ∧
    (job.attempts + 1 = mx - 1 →
      jobStatusS (runTick mx true false err s) job.id =
        some JobStatus.queued ∧
      jobLastErrS (runTick mx true false err s) job.id = some (some err)) := by
  have hNA : newAttemptsOf (claimedRow (job.attempts + 1) job) =
      job.attempts + 1 :=
    newAttemptsOf_claimedRow (job.attempts + 1) job (Nat.succ_ne_zero _)
  constructor
  · intro hge
    constructor
    · unfold jobStatusS
      rw [runTick_jobById_claimed hnd hsel mx true false err]
      simp [postRow, hNA, hge]
    · intro mid hmid hsome
      rw [runTick_of_sel hnd hsel mx true false err, if_neg (by decide)]
      unfold failPath
      rw [if_pos (by rw [hNA]; exact hge)]
      have hmid2 : (claimedRow (job.attempts + 1) job).message_id = some mid :=
        hmid
      rw [hmid2]
      obtain ⟨v, hv⟩ := Option.isSome_iff_exists.1 hsome
      have hpres : msgStatusS (jobFailUpdate mx (claimedRow (job.attempts + 1) job)
          (if true then err else clientNotInitialized)
          (claimStore s job.id (job.attempts + 1))) mid = msgStatusS s mid := rfl
      rw [msgStatusS_msgUpdate, hpres, hv]
      rfl
  · intro heq
    have hlt : ¬ (job.attempts + 1 ≥ mx) := by omega
    constructor
    · unfold jobStatusS
      rw [runTick_jobById_claimed hnd hsel mx true false err]
      simp [postRow, hNA, hlt]
    · unfold jobLastErrS
      rw [runTick_jobById_claimed hnd hsel mx true false err]
      simp [postRow, hNA, hlt]

/-- C3 witness: with `MAX_ATTEMPTS = 2`, a claimed record at attempts 2 is
failed (and its message failed); with `MAX_ATTEMPTS = 3`, the same record
at attempts `3 - 1` is requeued with `last_error` set. -/
theorem attempt_ceiling_boundary_witness :
    jobStatusS (runTick 2 true false ['x'] cStoreM) cJobM.id =
        some JobStatus.failed ∧
    msgStatusS (runTick 2 true false ['x'] cStoreM) 7 =
        some JobStatus.failed ∧
    jobStatusS (runTick 3 true false ['x'] cStoreM) cJobM.id =
        some JobStatus.queued ∧
    jobLastErrS (runTick 3 true false ['x'] cStoreM) cJobM.id =
        some (some ['x']) := by
  have A := attempt_ceiling_boundary 2 ['x'] cStoreM cJobM (by decide) (by decide)
  have B := attempt_ceiling_boundary 3 ['x'] cStoreM cJobM (by decide) (by decide)
  exact ⟨(A.1 (by decide)).1, (A.1 (by decide)).2 7 (by decide) (by decide),
    (B.2 (by decide)).1, (B.2 (by decide)).2⟩

/-- C5 (counterexample): a tick with no initialized client claims the
queued job, the send throws, and the failure path requeues it — the job
ends `queued` again but its `attempts` counter has changed from 0 to 1,
contradicting "attempts unchanged". -/
theorem session_unavailable_counterexample :
    jobStatusS (runTick 5 false true [] cStore) 0 = some JobStatus.queued ∧
    jobAttemptsS cStore 0 = some 0 ∧
    jobAttemptsS (runTick 5 false true [] cStore) 0 = some 1 ∧
    ¬ jobAttemptsS (runTick 5 false true [] cStore) 0 = jobAttemptsS cStore 0 := by
  refine ⟨by decide, by decide, by decide, by decide⟩

/-- C5 (amended): a tick with no initialized client claims the selected
queued job and runs the normal failure path with the error
`'WhatsApp client not initialized'`: below the ceiling the job returns to
`queued` with `attempts` incremented by one and `last_error` recorded; at
or above the ceiling it becomes `failed`. -/
theorem session_unavailable_amended (mx : Nat) (ok : Bool) (err : Str)
    (s : Store) (job : Job) (hnd : (s.jobs.map Job.id).Nodup)
    (hsel : selectOldestQueued s = some job) :
    (job.attempts + 1 < mx →
      jobStatusS (runTick mx false ok err s) job.id = some JobStatus.queued ∧
      jobAttemptsS (runTick mx false ok err s) job.id =
        some (job.attempts + 1) ∧
      jobLastErrS (runTick mx false ok err s) job.id =
        some (some clientNotInitialized)) ∧
    (job.attempts + 1 ≥ mx →
      jobStatusS (runTick mx false ok err s) job.id =
        some JobStatus.failed) := by
  have hNA : newAttemptsOf (claimedRow (job.attempts + 1) job) =
      job.attempts + 1 :=
    newAttemptsOf_claimedRow (job.attempts + 1) job (Nat.succ_ne_zero _)
  constructor
  · intro hlt
    have hlt2 : ¬ (job.attempts + 1 ≥ mx) := by omega
    refine ⟨?_, ?_, ?_⟩
    · unfold jobStatusS
      rw [runTick_jobById_claimed hnd hsel mx false ok err]
      simp [postRow, hNA, hlt2]
    · unfold jobAttemptsS
      rw [runTick_jobById_claimed hnd hsel mx false ok err]
      simp [postRow_attempts, claimedRow]
    · unfold jobLastErrS
      rw [runTick_jobById_claimed hnd hsel mx false ok err]
      simp [postRow, hNA, hlt2]
  · intro hge
    unfold jobStatusS
    rw [runTick_jobById_claimed hnd hsel mx false ok err]
    simp [postRow, hNA, hge]

/-- C5 witness: the amended behavior on the concrete store. -/
theorem session_unavailable_amended_witness :
    jobStatusS (runTick 5 false true [] cStore) cJob.id =
        some JobStatus.queued ∧
    jobAttemptsS (runTick 5 false true [] cStore) cJob.id =
        some (cJob.attempts + 1) ∧
    jobLastErrS (runTick 5 false true [] cStore) cJob.id =
        some (some clientNotInitialized) :=
  (session_unavailable_amended 5 true [] cStore cJob (by decide) (by decide)).1
    (by decide)

/-- C6 (counterexample): an acquisition failure that does not match the
busy-conflict signature is retried rather than propagated — with a
non-busy error on attempt 1 and success on attempt 2, acquisition returns
success instead of the fatal error the claim requires. -/
theorem nonbusy_failure_retried :
    isBusyError netErr = false ∧
    (startWhatsAppClient ceOutcomes).1 = AcqResult.success 2 ∧
    ¬ (startWhatsAppClient ceOutcomes).1 = AcqResult.fatal netErr := by
  refine ⟨by decide, by decide, by decide⟩

/-- C6 (amended): session acquisition retries failures of any class up to
the ceiling of 3 attempts; a failure on the third attempt (busy or not)
propagates as a fatal error carrying that attempt's message; every
backoff delay recorded before a busy retry is at least the 1000 ms floor;
and a successful acquisition happens on some attempt between 1 and 3
whose outcome was a successful `create`. -/
theorem acquire_retry_policy :
    (∀ (outcomes : Nat → AcqOutcome) (m1 m2 m3 : Str),
      outcomes 1 = AcqOutcome.err m1 → outcomes 2 = AcqOutcome.err m2 →
      outcomes 3 = AcqOutcome.err m3 →
      (startWhatsAppClient outcomes).1 = AcqResult.fatal m3) ∧
    (∀ (outcomes : Nat → AcqOutcome) (d : Nat),
      d ∈ (startWhatsAppClient outcomes).2 → 1000 ≤ d) ∧
    (∀ (outcomes : Nat → AcqOutcome) (k : Nat),
      (startWhatsAppClient outcomes).1 = AcqResult.success k →
      outcomes k = AcqOutcome.ok ∧ 1 ≤ k ∧ k ≤ 3) :=
  ⟨fun _ _ _ _ h1 h2 h3 => acquire_fatal_three h1 h2 h3,
    fun outcomes d hd => acquire_delays_ge outcomes 3 1 d hd,
    fun _ _ h => acquire_success_ok h⟩

/-- C6 witness: three busy failures end fatal with the busy message, the
recorded backoff delay 1000 meets the floor, and the successful attempt
of the non-busy run had a successful outcome. -/
theorem acquire_retry_policy_witness :
    (startWhatsAppClient allBusy).1 = AcqResult.fatal busyPattern1 ∧
    1000 ≤ 1000 ∧
    ceOutcomes 2 = AcqOutcome.ok :=
  ⟨acquire_retry_policy.1 allBusy busyPattern1 busyPattern1 busyPattern1
      rfl rfl rfl,
    acquire_retry_policy.2.1 allBusy 1000 (by decide),
    (acquire_retry_policy.2.2 ceOutcomes 2 (by decide)).1⟩

/-- C7 (counterexample): a file whose name matches a durable
authentication pattern (`'lock.data'` contains `'.data'`) but whose
lowercase name starts with `'lock'` is deleted by the cleanup, so cleanup
does not leave every durable-auth-pattern file intact. -/
theorem cleanup_deletes_durable_pattern :
    isSessionToken trapName = true ∧
    isLockFile sLockName = true ∧
    findFile trapName ceDir = some authContents ∧
    findFile trapName (cleanupChromiumLockFiles ceDir) = none := by
  refine ⟨by decide, by decide, by decide, by decide⟩

/-- C7 (amended): for every profile directory, cleanup removes every
top-level file whose name matches the volatile lock predicate (such as
`SingletonLock`) and leaves every file whose name does not match it —
in particular a durable-auth file with an ordinary name — byte-identical. -/
theorem cleanup_preserves_nonlock (es : List FSEntry) (nmA nm : Str)
    (hA : isLockFile nmA = true) (hD : isLockFile nm = false) :
    findFile nmA (cleanupChromiumLockFiles es) = none ∧
    findFile nm (cleanupChromiumLockFiles es) = findFile nm es :=
  ⟨cleanListAux_removes hA 0 es, cleanListAux_preserves hD 0 es⟩

/-- C7 witness: on a directory holding `SingletonLock` and
`session.data`, cleanup removes the former and preserves the latter. -/
theorem cleanup_preserves_nonlock_witness :
    findFile sLockName (cleanupChromiumLockFiles okDir) = none ∧
    findFile dataName (cleanupChromiumLockFiles okDir) = findFile dataName okDir :=
  cleanup_preserves_nonlock okDir sLockName dataName (by decide) (by decide)

/-- C8: a tick entry while the `isProcessingJob` flag is set performs no
work and changes nothing (reentrancy guard); the flag stays in lockstep
with being mid-tick across every step, so it is released on every exit
path; and the catch-all error handler in particular returns the
dispatcher to idle with the flag released, without touching the store. -/
theorem reentrancy_guard (mx : Nat) :
    (∀ (st : Store) (p : Proc), p.flag = true →
      procStep mx st p Action.start = (st, p)) ∧
    (∀ (st : Store) (p : Proc) (a : Action), FlagInv p →
      FlagInv (procStep mx st p a).2) ∧
    (∀ (st : Store) (p : Proc),
      procStep mx st p Action.abort = (st, idleProc) ∧
        idleProc.flag = false) := by
  refine ⟨?_, ?_, fun st p => ⟨rfl, rfl⟩⟩
  · intro st p hf
    obtain ⟨fl, ph⟩ := p
    have hf2 : fl = true := hf
    cases ph with
    | idle => simp [procStep, hf2]
    | queried snap => rfl
    | claimed row => rfl
    | sendDone row ok err => rfl
    | msgWrite mid stt => rfl
  · intro st p a hF
    obtain ⟨fl, ph⟩ := p
    cases a with
    | start =>
      cases ph with
      | idle =>
        by_cases hf : fl = true
        · simpa [procStep, hf] using hF
        · cases hsel : selectOldestQueued st with
          | none => simp [procStep, hf, hsel, FlagInv, idleProc]
          | some job => simp [procStep, hf, hsel, FlagInv]
      | queried snap => exact hF
      | claimed row => exact hF
      | sendDone row ok err => exact hF
      | msgWrite mid stt => exact hF
    | claim =>
      cases ph with
      | queried snap =>
        show FlagInv (match (claimJob st snap.id (snap.attempts + 1)).2 with
          | none => idleProc
          | some row => { flag := true, phase := Phase.claimed row })
        cases (claimJob st snap.id (snap.attempts + 1)).2 with
        | none => exact flagInv_idleProc
        | some row => simp [FlagInv]
      | idle => exact hF
      | claimed row => exact hF
      | sendDone row ok err => exact hF
      | msgWrite mid stt => exact hF
    | send ok err =>
      cases ph with
      | claimed row => simp [procStep, FlagInv]
      | idle => exact hF
      | queried snap => exact hF
      | sendDone row ok2 err2 => exact hF
      | msgWrite mid stt => exact hF
    | write =>
      cases ph with
      | sendDone row ok err =>
        show FlagInv (if ok then
            match row.message_id with
            | some mid => { flag := true, phase := Phase.msgWrite mid JobStatus.sent }
            | none => idleProc
          else if newAttemptsOf row ≥ mx then
            match row.message_id with
            | some mid => { flag := true, phase := Phase.msgWrite mid JobStatus.failed }
            | none => idleProc
          else idleProc)
        by_cases hok : ok = true
        · rw [if_pos hok]
          cases row.message_id with
          | some mid => simp [FlagInv]
          | none => exact flagInv_idleProc
        · rw [if_neg (by simpa using hok)]
          by_cases hmax : newAttemptsOf row ≥ mx
          · rw [if_pos hmax]
            cases row.message_id with
            | some mid => simp [FlagInv]
            | none => exact flagInv_idleProc
          · rw [if_neg hmax]
            exact flagInv_idleProc
      | idle => exact hF
      | queried snap => exact hF
      | claimed row => exact hF
      | msgWrite mid stt => exact hF
    | msg =>
      cases ph with
      | msgWrite mid stt => exact flagInv_idleProc
      | idle => exact hF
      | queried snap => exact hF
      | claimed row => exact hF
      | sendDone row ok err => exact hF
    | abort => exact flagInv_idleProc

/-- C8 witness: a start with the flag set is a no-op, a start from idle
preserves the lockstep, and the error handler resets to idle. -/
theorem reentrancy_guard_witness :
    procStep 5 cStore { flag := true, phase := Phase.idle } Action.start =
      (cStore, { flag := true, phase := Phase.idle }) ∧
    FlagInv (procStep 5 cStore idleProc Action.start).2 ∧
    procStep 5 cStore idleProc Action.abort = (cStore, idleProc) :=
  ⟨(reentrancy_guard 5).1 cStore { flag := true, phase := Phase.idle } rfl,
    (reentrancy_guard 5).2.1 cStore idleProc Action.start flagInv_idleProc,
    ((reentrancy_guard 5).2.2 cStore idleProc).1⟩

/-- C9: the query returns only `queued` jobs and a successful claim
requires the row to have been `queued`; and along any interleaving of any
number of dispatchers from an initial configuration, once a job's record
is `sent` or `failed` it is never selected, claimed, or rewritten — its
record is still found unchanged after any further steps. -/
theorem terminal_immutability (mx : Nat) (s0 : Store) (n : Nat)
    (hnd : (s0.jobs.map Job.id).Nodup) (tr more : List (Nat × Action))
    (j : Job) (hmem : j ∈ (runTrace mx (initConfig s0 n) tr).store.jobs)
    (hterm : j.status = JobStatus.sent ∨ j.status = JobStatus.failed) :
    jobById (runTrace mx (runTrace mx (initConfig s0 n) tr) more).store j.id =
      some j ∧
    (∀ (s : Store) (job : Job), selectOldestQueued s = some job →
      job.status = JobStatus.queued) ∧
    (∀ (s : Store) (jid att : Nat) (row : Job),
      (claimJob s jid att).2 = some row →
      ∃ j0 ∈ s.jobs, j0.id = jid ∧ j0.status = JobStatus.queued) := by
  refine ⟨?_, fun s job h => (selectOldestQueued_mem h).2,
    fun s jid att row h => claim_some_queued_row h⟩
  have hInv1 := inv_runTrace mx (inv_initConfig hnd n) tr
  have hmem2 := terminal_preserved_trace mx hInv1 more hmem hterm
  have hInv2 := inv_runTrace mx hInv1 more
  exact jobById_eq_of_mem hInv2.1 hmem2

/-- C9 witness: the sent job in the concrete store is still found
unchanged after a further full (failing) tick of the other job. -/
theorem terminal_immutability_witness :
    jobById (runTrace 5 (runTrace 5 (initConfig sentStore 1) [])
        [(0, Action.start), (0, Action.claim),
         (0, Action.send false ['e']), (0, Action.write)]).store
      sentJob.id = some sentJob :=
  (terminal_immutability 5 sentStore 1 (by decide) []
    [(0, Action.start), (0, Action.claim),
     (0, Action.send false ['e']), (0, Action.write)]
    sentJob (by decide) (by decide)).1

end Wingshack
